import Mathlib

/-!
Verification of the SMART-Admin hash-chained audit ledger
(server/smart_ledger.py): a shallow embedding of the entry model, the
chain store, the derived index, deletion governance and the transfer
package builder, together with proofs of the documented properties.

The SHA-256 digest is treated as an unspecified function
`H : String → String` over the deterministic hash-input string built by
`SmartLedgerEntry.calculate_hash`; every theorem is universally
quantified over `H`. Wall-clock readings (`datetime.now`, `time.time`)
are modelled as explicit input parameters. Disk writes that can fail in
the source (the append of a serialized entry, the authorization-attempt
log write, the deletion-audit write) take an explicit Boolean telling
whether the write succeeds, mirroring the corresponding try/except
blocks.
-/

/-- Lexicographic comparison of character lists by code point, the way
Python compares `str` values. -/
def strLeB : List Char → List Char → Bool
  | [], _ => true
  | _ :: _, [] => false
  | a :: as, b :: bs =>
    if a.toNat < b.toNat then true
    else if b.toNat < a.toNat then false
    else strLeB as bs

/-- String order used by the source for timestamp comparisons and
`sort_keys=True` serialization (Python `<=` on strings). -/
def pyStrLe (a b : String) : Bool := strLeB a.data b.data

/-- Python `str.startswith`, on the underlying character lists (the
source uses it for the credential-prefix checks). -/
def strStarts : List Char → List Char → Bool
  | [], _ => true
  | _ :: _, [] => false
  | a :: ps, b :: ss => a == b && strStarts ps ss

/-- Boolean test that `s` starts with `p`, as `s.startswith(p)`. -/
def pyStartsWith (s p : String) : Bool := strStarts p.data s.data

/-- Insert an element into a list assumed sorted for `le`, keeping it
sorted; elements considered equal keep the incoming element first, as a
stable sort does. -/
def insertSorted (le : α → α → Bool) (x : α) : List α → List α
  | [] => [x]
  | y :: l => if le x y then x :: y :: l else y :: insertSorted le x l

/-- Stable sort for the Boolean relation `le`; models Python
`list.sort` / `sorted`, which are stable. -/
def sortBy (le : α → α → Bool) : List α → List α
  | [] => []
  | x :: l => insertSorted le x (sortBy le l)

/-- Order on metadata key/value pairs by key, used by
`json.dumps(metadata, sort_keys=True)`. -/
def keyLe (p q : String × String) : Bool := pyStrLe p.1 q.1

/-- Serialization of the `metadata` mapping as
`json.dumps(metadata, sort_keys=True)` renders it: keys sorted, items
joined by a comma-space, each item rendered as a quoted key, a
colon-space, and a quoted value. Metadata values are modelled as
strings. -/
def jsonDumpsSorted (md : List (String × String)) : String :=
  "\x7b" ++
    String.intercalate ", "
      ((sortBy keyLe md).map fun p => "\"" ++ p.1 ++ "\": \"" ++ p.2 ++ "\"") ++
  "\x7d"

/-- One ledger entry (class `SmartLedgerEntry`), after its hash has
been computed: the seven business fields plus `previous_hash`,
`entry_hash` and the display identifier `entry_id`. -/
structure SmartLedgerEntry where
  timestamp : String
  action_type : String
  action : String
  target : String
  details : String
  user_id : String
  smart_id : String
  metadata : List (String × String)
  previous_hash : String
  entry_hash : String
  entry_id : String
deriving DecidableEq

/-- The deterministic hash-input string built by
`SmartLedgerEntry.calculate_hash`: the colon-joined business fields,
the predecessor hash, and the canonical metadata serialization. -/
def hashDataOf (ts atype act tgt det uid sid : String)
    (md : List (String × String)) (prev : String) : String :=
  ts ++ ":" ++ atype ++ ":" ++ act ++ ":" ++ tgt ++ ":" ++ det ++ ":" ++
    uid ++ ":" ++ sid ++ ":" ++ prev ++ ":" ++ jsonDumpsSorted md

/-- The hash-input string of a stored entry, recomputed from its stored
fields and a given predecessor hash (as `validate_chain` does when it
rebuilds a temporary entry and calls `calculate_hash` on it). -/
def SmartLedgerEntry.hashData (e : SmartLedgerEntry) (prev : String) : String :=
  hashDataOf e.timestamp e.action_type e.action e.target e.details
    e.user_id e.smart_id e.metadata prev

/-- First `n` characters of a string (Python slice `s[:8]` on the hash). -/
def strTake (s : String) (n : Nat) : String := String.mk (s.data.take n)

/-- `SmartLedgerEntry.__init__` followed by `calculate_hash(previous_hash)`:
builds the fully initialized entry. `H` is the digest,
`ts` the `datetime.now` reading taken in the constructor and `nowMs`
the `int(time.time() * 1000)` reading used for `entry_id`. -/
def calcEntry (H : String → String) (ts atype act tgt det uid sid : String)
    (md : List (String × String)) (prev : String) (nowMs : Nat) : SmartLedgerEntry :=
  let h := H (hashDataOf ts atype act tgt det uid sid md prev)
  { timestamp := ts, action_type := atype, action := act, target := tgt,
    details := det, user_id := uid, smart_id := sid, metadata := md,
    previous_hash := prev, entry_hash := h,
    entry_id := "led_" ++ toString nowMs ++ "_" ++ strTake h 8 }

/-- Bump a counter dictionary, as the Python
`if k not in d: d[k] = 0; d[k] += 1` idiom does: counters are an
association list in key-first-occurrence order. -/
def bumpCount : List (String × Nat) → String → List (String × Nat)
  | [], k => [(k, 1)]
  | (k2, n) :: rest, k =>
    if k2 = k then (k2, n + 1) :: rest else (k2, n) :: bumpCount rest k

/-- The derived search index written by `_update_index`: entry total,
cached last hash, and counters by action type, by user and by SMART-ID.
(The source also stamps a `last_updated` time on the written file; that
field is derived bookkeeping referenced by no property and is omitted.) -/
structure IndexData where
  total_entries : Nat
  last_hash : String
  entry_types : List (String × Nat)
  users : List (String × Nat)
  smart_ids : List (String × Nat)
deriving DecidableEq

/-- Body of the `for entry in self.entries` loop of `_update_index`:
counts one entry into the three counter dictionaries; an empty
`smart_id` is not counted. -/
def indexStep (idx : IndexData) (e : SmartLedgerEntry) : IndexData :=
  { idx with
    entry_types := bumpCount idx.entry_types e.action_type,
    users := bumpCount idx.users e.user_id,
    smart_ids := if e.smart_id = "" then idx.smart_ids
                 else bumpCount idx.smart_ids e.smart_id }

/-- `_update_index` rebuilt from scratch: starts from the totals and
the cached last hash, then folds every stored entry through the
counting loop. -/
def buildIndex (entries : List SmartLedgerEntry) (last_hash : String) : IndexData :=
  entries.foldl indexStep
    { total_entries := entries.length, last_hash := last_hash,
      entry_types := [], users := [], smart_ids := [] }

/-- One line of the authorization-attempt trail written at the top of
`authorize_ledger_deletion`. -/
structure AuthAttempt where
  timestamp : String
  smart_id : String
  reason : String
  supervisor_id : Option String
  ledger_name : String
  action : String
deriving DecidableEq

/-- One integrity violation reported by `validate_chain`: either a
recomputed-hash mismatch or a broken predecessor link, each tagged with
the entry index and `entry_id`. -/
inductive Violation where
  | hashMismatch (index : Nat) (entry_id : String) (expected_hash actual_hash : String)
  | chainBreak (index : Nat) (entry_id : String) (expected_previous actual_previous : String)
deriving DecidableEq

/-- The dictionary returned by `validate_chain`. -/
structure ValidationResult where
  valid : Bool
  total_entries : Nat
  invalid_entries : List Violation
  message : String
deriving DecidableEq

/-- The dictionary returned by `get_stats`; `Option` marks the keys
that are absent in some branches (no `last_hash` on an empty ledger, no
counters when the index file is missing). -/
structure StatsData where
  total_entries : Nat
  first_entry : Option String
  last_entry : Option String
  last_hash : Option String
  action_types : Option (List (String × Nat))
  users : Option (List (String × Nat))
  smart_ids : Option (List (String × Nat))
deriving DecidableEq

/-- One record of the shared deletion-audit trail, built by
`authorized_ledger_deletion` before any destruction. -/
structure DeletionRecord where
  deletion_timestamp : String
  authorized_by : String
  supervisor_by : Option String
  reason : String
  ledger_name : String
  ledger_stats : StatsData
  final_entries : List SmartLedgerEntry
  hash_chain_validation : ValidationResult
deriving DecidableEq

/-- The chain store (class `SmartLedger`): its name, the in-memory
entry sequence, the cached last hash, and the on-disk artefacts it
owns — backing file content (`none` while the file does not exist),
index snapshot, per-ledger authorization-attempt trail and the shared
deletion-audit trail. -/
structure SmartLedger where
  ledger_name : String
  entries : List SmartLedgerEntry
  last_hash : String
  ledger_file : Option (List SmartLedgerEntry)
  index_file : Option IndexData
  auth_file : List AuthAttempt
  deletion_audit_file : List DeletionRecord
deriving DecidableEq

/-- A freshly constructed ledger for which no backing file exists yet:
`__init__` leaves `entries = []` and `last_hash = "0"`. -/
def SmartLedger.initial (name : String) : SmartLedger :=
  { ledger_name := name, entries := [], last_hash := "0",
    ledger_file := none, index_file := none,
    auth_file := [], deletion_audit_file := [] }

/-- Last `n` elements of a list (Python `l[-n:]`, also `l` itself when
shorter than `n`). -/
def lastN (n : Nat) (l : List α) : List α := l.drop (l.length - n)

/-- `record_action`: build the entry, chain its hash to the current
`last_hash`, append it in memory, then attempt the durable append
(`writeOk`). On success the file, `last_hash` and the index snapshot
are updated and the `entry_id` is returned; on failure the in-memory
append is popped again and the error is re-raised to the caller. -/
def SmartLedger.record_action (H : String → String) (st : SmartLedger)
    (action_type action target details user_id smart_id : String)
    (metadata : List (String × String)) (ts : String) (nowMs : Nat)
    (writeOk : Bool) : Except String String × SmartLedger :=
  let entry := calcEntry H ts action_type action target details user_id
    smart_id metadata st.last_hash nowMs
  let appended := st.entries ++ [entry]
  if writeOk then
    let written : SmartLedger :=
      { st with entries := appended,
                ledger_file := some ((st.ledger_file.getD []) ++ [entry]),
                last_hash := entry.entry_hash }
    (Except.ok entry.entry_id,
     { written with index_file := some (buildIndex written.entries written.last_hash) })
  else
    (Except.error "Failed to record ledger entry",
     { st with entries := appended.dropLast })

/-- The `for i, entry in enumerate(self.entries)` loop of
`validate_chain`: recompute each entry's hash from its stored fields
and the running expected predecessor hash, report a hash mismatch and —
independently — a predecessor mismatch, then advance the expected hash
to the stored `entry_hash`. -/
def validateEntries (H : String → String) : Nat → String → List SmartLedgerEntry → List Violation
  | _, _, [] => []
  | i, expected, e :: rest =>
    let calculated := H (e.hashData expected)
    ((if calculated = e.entry_hash then []
      else [Violation.hashMismatch i e.entry_id calculated e.entry_hash]) ++
     (if e.previous_hash = expected then []
      else [Violation.chainBreak i e.entry_id expected e.previous_hash])) ++
    validateEntries H (i + 1) e.entry_hash rest

/-- `validate_chain`: an empty ledger is trivially valid; otherwise run
the per-entry loop from the genesis sentinel `"0"` and report. The
method reads the store without writing it; the returned state is the
store after the call. -/
def SmartLedger.validate_chain (H : String → String) (st : SmartLedger) :
    ValidationResult × SmartLedger :=
  if st.entries = [] then
    ({ valid := true, total_entries := 0, invalid_entries := [],
       message := "Empty ledger is valid" }, st)
  else
    let invalid := validateEntries H 0 "0" st.entries
    ({ valid := invalid.isEmpty, total_entries := st.entries.length,
       invalid_entries := invalid,
       message := if invalid.isEmpty then "Chain is valid"
                  else "Found " ++ toString invalid.length ++ " integrity violations" },
     st)

/-- One optional-filter statement of `get_entries`
(`if val: filtered = [e for e in filtered if ...]`): a missing or
Python-falsy (empty-string) filter value leaves the list as it is. -/
def applyFilter (o : Option String) (p : String → SmartLedgerEntry → Bool)
    (l : List SmartLedgerEntry) : List SmartLedgerEntry :=
  match o with
  | none => l
  | some a => if a = "" then l else l.filter fun e => p a e

/-- `get_entries`: copy the sequence, apply each supplied filter in
turn, sort by timestamp newest first (stable), then slice
`[offset : offset + limit]`. The store itself is returned unchanged. -/
def SmartLedger.get_entries (st : SmartLedger) (limit offset : Nat)
    (action_type user_id start_time end_time : Option String) :
    List SmartLedgerEntry × SmartLedger :=
  let f1 := applyFilter action_type (fun a e => e.action_type == a) st.entries
  let f2 := applyFilter user_id (fun u e => e.user_id == u) f1
  let f3 := applyFilter start_time (fun s e => pyStrLe s e.timestamp) f2
  let f4 := applyFilter end_time (fun t e => pyStrLe e.timestamp t) f3
  let sorted := sortBy (fun x y => pyStrLe y.timestamp x.timestamp) f4
  ((sorted.drop offset).take limit, st)

/-- `get_stats`: totals and sequence bounds from the in-memory
sequence, counters from the index snapshot when that file exists. -/
def SmartLedger.get_stats (st : SmartLedger) : StatsData :=
  if st.entries = [] then
    { total_entries := 0, first_entry := none, last_entry := none,
      last_hash := none, action_types := some [], users := some [],
      smart_ids := some [] }
  else
    { total_entries := st.entries.length,
      first_entry := st.entries.head?.map fun e => e.timestamp,
      last_entry := st.entries.getLast?.map fun e => e.timestamp,
      last_hash := some st.last_hash,
      action_types := st.index_file.map fun idx => idx.entry_types,
      users := st.index_file.map fun idx => idx.users,
      smart_ids := st.index_file.map fun idx => idx.smart_ids }

/-- The hard-coded critical-ledger names requiring supervisor
approval. -/
def criticalLedgers : List String :=
  ["production", "audit", "compliance", "vault", "nodes"]

/-- `authorize_ledger_deletion`: log the attempt to the per-ledger
authorization trail (best effort, `authLogOk`), then deny unless
`smart_id` is truthy and carries a staff/admin/developer credential
marker, and — for critical ledger names — unless `supervisor_id` is
truthy and carries a supervisor/admin marker. -/
def SmartLedger.authorize_ledger_deletion (st : SmartLedger)
    (smart_id reason : String) (supervisor_id : Option String)
    (now : String) (authLogOk : Bool) : Bool × SmartLedger :=
  let attempt : AuthAttempt :=
    { timestamp := now, smart_id := smart_id, reason := reason,
      supervisor_id := supervisor_id, ledger_name := st.ledger_name,
      action := "deletion_authorization_request" }
  let st1 := if authLogOk then { st with auth_file := st.auth_file ++ [attempt] } else st
  if smart_id == "" ||
      !(pyStartsWith smart_id "STF-" || pyStartsWith smart_id "ADM-" ||
        pyStartsWith smart_id "DEV-") then
    (false, st1)
  else if criticalLedgers.contains st.ledger_name &&
      (match supervisor_id with
       | none => true
       | some s => s == "" ||
           !(pyStartsWith s "SUP-" || pyStartsWith s "ADM-")) then
    (false, st1)
  else
    (true, st1)

/-- Terminal outcome of `authorized_ledger_deletion`: completed, or one
of the two aborting exceptions (`PermissionError`, or the audit-trail
guard `Exception`). -/
inductive DeletionOutcome where
  | deleted
  | permissionError (msg : String)
  | auditWriteError (msg : String)
deriving DecidableEq

/-- `authorized_ledger_deletion`: re-run the authorization check
(aborting on denial), build the deletion record from the live chain
(stats, validation, final ten entries), append it to the shared
deletion-audit trail — aborting the whole deletion if that write fails
(`auditWriteOk`) — and only then remove the backing and index files and
reset the in-memory chain. The read-only final backup copy and the
`chattr` call are best-effort steps that do not alter the modelled
state. -/
def SmartLedger.authorized_ledger_deletion (H : String → String)
    (st : SmartLedger) (smart_id reason : String)
    (supervisor_id : Option String) (now : String)
    (authLogOk auditWriteOk : Bool) : DeletionOutcome × SmartLedger :=
  let auth := st.authorize_ledger_deletion smart_id reason supervisor_id now authLogOk
  if !auth.1 then
    (DeletionOutcome.permissionError "Unauthorized ledger deletion attempt", auth.2)
  else
    let st1 := auth.2
    let deletion_record : DeletionRecord :=
      { deletion_timestamp := now, authorized_by := smart_id,
        supervisor_by := supervisor_id, reason := reason,
        ledger_name := st1.ledger_name, ledger_stats := st1.get_stats,
        final_entries := lastN 10 st1.entries,
        hash_chain_validation := (st1.validate_chain H).1 }
    if !auditWriteOk then
      (DeletionOutcome.auditWriteError "Cannot delete ledger without audit trail", st1)
    else
      let st2 := { st1 with
        deletion_audit_file := st1.deletion_audit_file ++ [deletion_record] }
      (DeletionOutcome.deleted,
       { st2 with ledger_file := none, index_file := none,
                  entries := [], last_hash := "0" })

/-- The transfer package built for the Vault Hub. -/
structure TransferPackage where
  transfer_timestamp : String
  source_ledger : String
  total_entries : Nat
  final_hash : String
  bootstrap_entries : List SmartLedgerEntry
  hash_validation : ValidationResult
  meta_first_entry : Option String
  meta_last_entry : Option String
  meta_ledger_stats : StatsData
deriving DecidableEq

/-- Result of `create_transfer_package`: the explicit error dictionary
for an empty chain, or the package. -/
inductive TransferResult where
  | emptyErr (msg ledger_name : String)
  | ok (pkg : TransferPackage)
deriving DecidableEq

/-- `create_transfer_package`: an empty chain yields the explicit error
dictionary; otherwise a read-only snapshot with the final five entries
as bootstrap, the cached final hash and the full validation report. -/
def SmartLedger.create_transfer_package (H : String → String)
    (st : SmartLedger) (now : String) : TransferResult × SmartLedger :=
  if st.entries = [] then
    (TransferResult.emptyErr "No entries to transfer" st.ledger_name, st)
  else
    (TransferResult.ok
      { transfer_timestamp := now, source_ledger := st.ledger_name,
        total_entries := st.entries.length, final_hash := st.last_hash,
        bootstrap_entries := lastN 5 st.entries,
        hash_validation := (st.validate_chain H).1,
        meta_first_entry := st.entries.head?.map fun e => e.timestamp,
        meta_last_entry := st.entries.getLast?.map fun e => e.timestamp,
        meta_ledger_stats := st.get_stats }, st)

/-- Modelled from the spec: the Index contract's incremental
`apply(entry)` operation — "incrementally updates counts for one newly
appended entry (used on the hot append path)". The source implements
only the from-scratch rebuild (`_update_index`); this definition
follows the spec's words: count the new entry into each counter, add
one to the total, and advance the cached last hash to the new entry's
hash. -/
def indexApply (idx : IndexData) (e : SmartLedgerEntry) : IndexData :=
  { total_entries := idx.total_entries + 1,
    last_hash := e.entry_hash,
    entry_types := bumpCount idx.entry_types e.action_type,
    users := bumpCount idx.users e.user_id,
    smart_ids := if e.smart_id = "" then idx.smart_ids
                 else bumpCount idx.smart_ids e.smart_id }

/-- The empty Index an incrementally maintained index starts from. -/
def indexInit : IndexData :=
  { total_entries := 0, last_hash := "0", entry_types := [],
    users := [], smart_ids := [] }

/-- Stored `entry_hash` of the final entry of a segment, or the
incoming predecessor hash when the segment is empty: the value the
`expected_hash` accumulator of `validate_chain` holds after walking the
segment. -/
def chainEnd (p : String) : List SmartLedgerEntry → String
  | [] => p
  | e :: rest => chainEnd e.entry_hash rest

/-- Well-formed hash chain starting from predecessor hash `p`: every
entry stores `p` as its predecessor and the digest of its own recomputed
hash data, and the chain continues from its hash. -/
def chainOkFrom (H : String → String) : String → List SmartLedgerEntry → Bool
  | _, [] => true
  | p, e :: rest =>
    e.previous_hash == p && e.entry_hash == H (e.hashData p) &&
      chainOkFrom H e.entry_hash rest

/-- The caller-supplied arguments of one `record_action` call, with the
two clock readings the call takes. -/
structure AppendReq where
  action_type : String
  action : String
  target : String
  details : String
  user_id : String
  smart_id : String
  metadata : List (String × String)
  timestamp : String
  nowMs : Nat
deriving DecidableEq

/-- Run a sequence of `record_action` calls whose durable writes all
succeed. -/
def runAppends (H : String → String) (st : SmartLedger) : List AppendReq → SmartLedger
  | [] => st
  | r :: rs =>
    runAppends H
      (st.record_action H r.action_type r.action r.target r.details
        r.user_id r.smart_id r.metadata r.timestamp r.nowMs true).2 rs

theorem strLeB_total : ∀ (a b : List Char), (strLeB a b || strLeB b a) = true := by
  intro a
  induction a with
  | nil => intro b; simp [strLeB]
  | cons x xs ih =>
    intro b
    cases b with
    | nil => simp [strLeB]
    | cons y ys =>
      simp only [strLeB]
      rcases Nat.lt_trichotomy x.toNat y.toNat with h | h | h
      · simp [h]
      · simp only [h, Nat.lt_irrefl, if_false]
        exact ih ys
      · simp [h, Nat.lt_asymm h]

theorem strLeB_trans : ∀ (a b c : List Char),
    strLeB a b = true → strLeB b c = true → strLeB a c = true := by
  intro a
  induction a with
  | nil => intro b c _ _; simp [strLeB]
  | cons x xs ih =>
    intro b c hab hbc
    cases b with
    | nil => simp [strLeB] at hab
    | cons y ys =>
      cases c with
      | nil => simp [strLeB] at hbc
      | cons z zs =>
        simp only [strLeB] at hab hbc ⊢
        rcases Nat.lt_trichotomy x.toNat y.toNat with hxy | hxy | hxy
        · rcases Nat.lt_trichotomy y.toNat z.toNat with hyz | hyz | hyz
          · simp [show x.toNat < z.toNat by omega]
          · simp [show x.toNat < z.toNat by omega]
          · rw [if_neg (by omega), if_pos (by omega)] at hbc
            exact absurd hbc (by simp)
        · rw [if_neg (by omega), if_neg (by omega)] at hab
          rcases Nat.lt_trichotomy y.toNat z.toNat with hyz | hyz | hyz
          · simp [show x.toNat < z.toNat by omega]
          · rw [if_neg (by omega), if_neg (by omega)] at hbc
            rw [if_neg (by omega), if_neg (by omega)]
            exact ih ys zs hab hbc
          · rw [if_neg (by omega), if_pos (by omega)] at hbc
            exact absurd hbc (by simp)
        · rw [if_neg (by omega), if_pos (by omega)] at hab
          exact absurd hab (by simp)

theorem strLeB_antisymm : ∀ (a b : List Char),
    strLeB a b = true → strLeB b a = true → a = b := by
  intro a
  induction a with
  | nil =>
    intro b _ hba
    cases b with
    | nil => rfl
    | cons y ys => simp [strLeB] at hba
  | cons x xs ih =>
    intro b hab hba
    cases b with
    | nil => simp [strLeB] at hab
    | cons y ys =>
      simp only [strLeB] at hab hba
      by_cases hxy : x.toNat < y.toNat
      · rw [if_neg (by omega), if_pos hxy] at hba
        exact absurd hba (by simp)
      · by_cases hyx : y.toNat < x.toNat
        · rw [if_neg hxy, if_pos hyx] at hab
          exact absurd hab (by simp)
        · rw [if_neg hxy, if_neg hyx] at hab
          rw [if_neg hyx, if_neg hxy] at hba
          have hx : x = y := by
            have hn : x.toNat = y.toNat := by omega
            exact Char.ext (UInt32.ext hn)
          rw [hx, ih ys hab hba]

theorem pyStrLe_total (a b : String) : (pyStrLe a b || pyStrLe b a) = true :=
  strLeB_total a.data b.data

theorem pyStrLe_trans {a b c : String} (h1 : pyStrLe a b = true)
    (h2 : pyStrLe b c = true) : pyStrLe a c = true :=
  strLeB_trans a.data b.data c.data h1 h2

theorem pyStrLe_antisymm {a b : String} (h1 : pyStrLe a b = true)
    (h2 : pyStrLe b a = true) : a = b := by
  cases a with
  | mk da =>
    cases b with
    | mk db =>
      have : da = db := strLeB_antisymm da db h1 h2
      rw [this]

theorem insertSorted_perm (le : α → α → Bool) (x : α) :
    ∀ (l : List α), (insertSorted le x l).Perm (x :: l) := by
  intro l
  induction l with
  | nil => simp [insertSorted]
  | cons y l ih =>
    simp only [insertSorted]
    by_cases h : le x y = true
    · rw [if_pos h]
    · rw [if_neg h]
      exact (ih.cons y).trans (List.Perm.swap x y l)

theorem sortBy_perm (le : α → α → Bool) :
    ∀ (l : List α), (sortBy le l).Perm l := by
  intro l
  induction l with
  | nil => simp [sortBy]
  | cons x l ih =>
    exact (insertSorted_perm le x (sortBy le l)).trans (ih.cons x)

theorem mem_insertSorted {le : α → α → Bool} {x z : α} {l : List α}
    (h : z ∈ insertSorted le x l) : z = x ∨ z ∈ l := by
  have := ((insertSorted_perm le x l).mem_iff).mp h
  simpa using this

theorem pairwise_insertSorted {le : α → α → Bool}
    (htot : ∀ a b, (le a b || le b a) = true)
    (htrans : ∀ a b c, le a b = true → le b c = true → le a c = true)
    (x : α) :
    ∀ (l : List α), l.Pairwise (fun a b => le a b = true) →
      (insertSorted le x l).Pairwise (fun a b => le a b = true) := by
  intro l
  induction l with
  | nil => intro _; simp [insertSorted]
  | cons y l ih =>
    intro hp
    rw [List.pairwise_cons] at hp
    simp only [insertSorted]
    by_cases h : le x y = true
    · rw [if_pos h]
      rw [List.pairwise_cons]
      refine ⟨?_, List.pairwise_cons.mpr hp⟩
      intro z hz
      rcases List.mem_cons.mp hz with hz | hz
      · rw [hz]; exact h
      · exact htrans x y z h (hp.1 z hz)
    · rw [if_neg h]
      rw [List.pairwise_cons]
      refine ⟨?_, ih hp.2⟩
      intro z hz
      rcases mem_insertSorted hz with hz | hz
      · rw [hz]
        have := htot x y
        rw [Bool.or_eq_true] at this
        rcases this with h2 | h2
        · exact absurd h2 h
        · exact h2
      · exact hp.1 z hz

theorem pairwise_sortBy {le : α → α → Bool}
    (htot : ∀ a b, (le a b || le b a) = true)
    (htrans : ∀ a b c, le a b = true → le b c = true → le a c = true) :
    ∀ (l : List α), (sortBy le l).Pairwise (fun a b => le a b = true) := by
  intro l
  induction l with
  | nil => simp [sortBy]
  | cons x l ih => exact pairwise_insertSorted htot htrans x _ ih

theorem keyLe_total (p q : String × String) : (keyLe p q || keyLe q p) = true :=
  pyStrLe_total p.1 q.1

theorem keyLe_trans (p q r : String × String) (h1 : keyLe p q = true)
    (h2 : keyLe q r = true) : keyLe p r = true :=
  pyStrLe_trans h1 h2

theorem sorted_keyed_perm_eq :
    ∀ (l1 l2 : List (String × String)), l1.Perm l2 →
      l1.Pairwise (fun p q => keyLe p q = true) →
      l2.Pairwise (fun p q => keyLe p q = true) →
      (l1.map Prod.fst).Nodup → l1 = l2 := by
  intro l1
  induction l1 with
  | nil =>
    intro l2 hperm _ _ _
    exact hperm.nil_eq
  | cons a t ih =>
    intro l2 hperm hp1 hp2 hnd
    cases l2 with
    | nil => exact absurd hperm.symm.nil_eq (by simp)
    | cons b s =>
      have hab : a = b := by
        by_contra hne
        have hb2 : b ∈ t := by
          have hb1 : b ∈ a :: t := hperm.mem_iff.mpr (List.mem_cons_self b s)
          rcases List.mem_cons.mp hb1 with h | h
          · exact absurd h.symm hne
          · exact h
        have ha2 : a ∈ s := by
          have ha1 : a ∈ b :: s := hperm.mem_iff.mp (List.mem_cons_self a t)
          rcases List.mem_cons.mp ha1 with h | h
          · exact absurd h hne
          · exact h
        have h1 : keyLe a b = true := List.rel_of_pairwise_cons hp1 hb2
        have h2 : keyLe b a = true := List.rel_of_pairwise_cons hp2 ha2
        have hkey : a.1 = b.1 := pyStrLe_antisymm h1 h2
        have hmem : b.1 ∈ t.map Prod.fst := List.mem_map_of_mem Prod.fst hb2
        have hnotmem : a.1 ∉ t.map Prod.fst := by
          rw [List.map_cons] at hnd
          exact (List.nodup_cons.mp hnd).1
        rw [hkey] at hnotmem
        exact hnotmem hmem
      subst hab
      have hts : t.Perm s := hperm.cons_inv
      have htl : t = s :=
        ih s hts (List.pairwise_cons.mp hp1).2 (List.pairwise_cons.mp hp2).2
          (by rw [List.map_cons] at hnd; exact (List.nodup_cons.mp hnd).2)
      rw [htl]

theorem jsonDumpsSorted_perm_invariant (md1 md2 : List (String × String))
    (hperm : md1.Perm md2) (hnd : (md1.map Prod.fst).Nodup) :
    jsonDumpsSorted md1 = jsonDumpsSorted md2 := by
  have hp : (sortBy keyLe md1).Perm (sortBy keyLe md2) :=
    (sortBy_perm keyLe md1).trans (hperm.trans (sortBy_perm keyLe md2).symm)
  have hnd1 : ((sortBy keyLe md1).map Prod.fst).Nodup :=
    (((sortBy_perm keyLe md1).map Prod.fst).nodup_iff).mpr hnd
  have heq := sorted_keyed_perm_eq _ _ hp
    (pairwise_sortBy keyLe_total keyLe_trans md1)
    (pairwise_sortBy keyLe_total keyLe_trans md2) hnd1
  unfold jsonDumpsSorted
  rw [heq]

theorem record_action_true_state (H : String → String) (st : SmartLedger)
    (atype act tgt det uid sid : String) (md : List (String × String))
    (ts : String) (nowMs : Nat) :
    (st.record_action H atype act tgt det uid sid md ts nowMs true).2 =
      { st with
        entries := st.entries ++
          [calcEntry H ts atype act tgt det uid sid md st.last_hash nowMs],
        ledger_file := some ((st.ledger_file.getD []) ++
          [calcEntry H ts atype act tgt det uid sid md st.last_hash nowMs]),
        last_hash := (calcEntry H ts atype act tgt det uid sid md st.last_hash nowMs).entry_hash,
        index_file := some (buildIndex
          (st.entries ++ [calcEntry H ts atype act tgt det uid sid md st.last_hash nowMs])
          (calcEntry H ts atype act tgt det uid sid md st.last_hash nowMs).entry_hash) } := rfl

theorem chainEnd_append :
    ∀ (l m : List SmartLedgerEntry) (p : String),
      chainEnd p (l ++ m) = chainEnd (chainEnd p l) m := by
  intro l
  induction l with
  | nil => intro m p; rfl
  | cons e l ih =>
    intro m p
    simp only [List.cons_append, chainEnd]
    exact ih m e.entry_hash

theorem chainEnd_getLast :
    ∀ (l : List SmartLedgerEntry) (p : String) (e : SmartLedgerEntry),
      l.getLast? = some e → chainEnd p l = e.entry_hash := by
  intro l
  induction l with
  | nil => intro p e h; simp at h
  | cons x l ih =>
    intro p e h
    cases l with
    | nil => simp at h; simp [chainEnd, h]
    | cons y l2 =>
      rw [List.getLast?_cons_cons] at h
      exact ih x.entry_hash e h

theorem chainOkFrom_append (H : String → String) :
    ∀ (l m : List SmartLedgerEntry) (p : String),
      chainOkFrom H p (l ++ m) =
        (chainOkFrom H p l && chainOkFrom H (chainEnd p l) m) := by
  intro l
  induction l with
  | nil => intro m p; simp [chainOkFrom, chainEnd]
  | cons e l ih =>
    intro m p
    simp only [List.cons_append, chainOkFrom, chainEnd, List.append_eq]
    rw [ih m e.entry_hash]
    ac_rfl

theorem validateEntries_append (H : String → String) :
    ∀ (l m : List SmartLedgerEntry) (i : Nat) (p : String),
      validateEntries H i p (l ++ m) =
        validateEntries H i p l ++
          validateEntries H (i + l.length) (chainEnd p l) m := by
  intro l
  induction l with
  | nil => intro m i p; simp [validateEntries, chainEnd]
  | cons e l ih =>
    intro m i p
    simp only [List.cons_append, validateEntries, chainEnd, List.length_cons,
      List.append_assoc, List.append_eq]
    rw [ih m (i + 1) e.entry_hash]
    have harith : i + 1 + l.length = i + (l.length + 1) := by omega
    rw [harith]

theorem validateEntries_eq_nil (H : String → String) :
    ∀ (l : List SmartLedgerEntry) (i : Nat) (p : String),
      chainOkFrom H p l = true → validateEntries H i p l = [] := by
  intro l
  induction l with
  | nil => intro i p _; rfl
  | cons e l ih =>
    intro i p hok
    simp only [chainOkFrom, Bool.and_eq_true, beq_iff_eq] at hok
    obtain ⟨⟨hprev, hhash⟩, hrest⟩ := hok
    simp only [validateEntries, hprev, ← hhash]
    simp only [eq_self_iff_true, if_true, List.nil_append, List.append_nil]
    exact ih (i + 1) e.entry_hash hrest

theorem chainOk_head (H : String → String) :
    ∀ (l : List SmartLedgerEntry) (p : String) (e : SmartLedgerEntry),
      chainOkFrom H p l = true → l[0]? = some e → e.previous_hash = p := by
  intro l p e hok hget
  cases l with
  | nil => simp at hget
  | cons x l2 =>
    simp only [chainOkFrom, Bool.and_eq_true, beq_iff_eq] at hok
    simp at hget
    rw [← hget]
    exact hok.1.1

theorem chainOk_prev_link (H : String → String) :
    ∀ (l : List SmartLedgerEntry) (p : String),
      chainOkFrom H p l = true →
      ∀ (i : Nat) (e1 e2 : SmartLedgerEntry),
        l[i]? = some e1 → l[i + 1]? = some e2 →
        e2.previous_hash = e1.entry_hash := by
  intro l
  induction l with
  | nil => intro p _ i e1 e2 h1 _; simp at h1
  | cons x l2 ih =>
    intro p hok i e1 e2 h1 h2
    simp only [chainOkFrom, Bool.and_eq_true, beq_iff_eq] at hok
    cases i with
    | zero =>
      simp at h1
      rw [List.getElem?_cons_succ] at h2
      rw [chainOk_head H l2 x.entry_hash e2 hok.2 h2, h1]
    | succ j =>
      rw [List.getElem?_cons_succ] at h1 h2
      exact ih x.entry_hash hok.2 j e1 e2 h1 h2

theorem chainOk_rehash (H : String → String) :
    ∀ (l : List SmartLedgerEntry) (p : String),
      chainOkFrom H p l = true →
      ∀ e ∈ l, H (e.hashData e.previous_hash) = e.entry_hash := by
  intro l
  induction l with
  | nil => intro p _ e he; simp at he
  | cons x l2 ih =>
    intro p hok e he
    simp only [chainOkFrom, Bool.and_eq_true, beq_iff_eq] at hok
    rcases List.mem_cons.mp he with he | he
    · subst he
      rw [hok.1.1, ← hok.1.2]
    · exact ih x.entry_hash hok.2 e he

/-- The reachable-state invariant maintained by successful appends: the
in-memory sequence is a well-formed chain from the genesis sentinel and
`last_hash` caches the hash of its final entry. -/
def ChainInv (H : String → String) (st : SmartLedger) : Prop :=
  chainOkFrom H "0" st.entries = true ∧ st.last_hash = chainEnd "0" st.entries

theorem calcEntry_hashData (H : String → String)
    (ts atype act tgt det uid sid : String) (md : List (String × String))
    (prev : String) (nowMs : Nat) :
    (calcEntry H ts atype act tgt det uid sid md prev nowMs).hashData prev =
      hashDataOf ts atype act tgt det uid sid md prev := by
  simp [calcEntry, SmartLedgerEntry.hashData]

theorem record_action_inv (H : String → String) (st : SmartLedger)
    (atype act tgt det uid sid : String) (md : List (String × String))
    (ts : String) (nowMs : Nat) (h : ChainInv H st) :
    ChainInv H (st.record_action H atype act tgt det uid sid md ts nowMs true).2 := by
  obtain ⟨hok, hlast⟩ := h
  rw [ChainInv, record_action_true_state]
  constructor
  · simp only [chainOkFrom_append H, hok, Bool.true_and]
    simp only [chainOkFrom, Bool.and_eq_true, beq_iff_eq]
    refine ⟨⟨?_, ?_⟩, trivial⟩
    · simp [calcEntry, hlast]
    · rw [← hlast, calcEntry_hashData]
      simp [calcEntry]
  · rw [chainEnd_append]
    simp [chainEnd]

theorem runAppends_inv (H : String → String) :
    ∀ (reqs : List AppendReq) (st : SmartLedger),
      ChainInv H st → ChainInv H (runAppends H st reqs) := by
  intro reqs
  induction reqs with
  | nil => intro st h; exact h
  | cons r rs ih =>
    intro st h
    exact ih _ (record_action_inv H st r.action_type r.action r.target
      r.details r.user_id r.smart_id r.metadata r.timestamp r.nowMs h)

theorem runAppends_length (H : String → String) :
    ∀ (reqs : List AppendReq) (st : SmartLedger),
      (runAppends H st reqs).entries.length = st.entries.length + reqs.length := by
  intro reqs
  induction reqs with
  | nil => intro st; simp [runAppends]
  | cons r rs ih =>
    intro st
    rw [runAppends, ih, record_action_true_state]
    simp
    omega

theorem foldl_indexStep_total :
    ∀ (l : List SmartLedgerEntry) (A : IndexData),
      (List.foldl indexStep A l).total_entries = A.total_entries := by
  intro l
  induction l with
  | nil => intro A; rfl
  | cons e l ih => intro A; rw [List.foldl_cons, ih]; rfl

theorem foldl_indexStep_last :
    ∀ (l : List SmartLedgerEntry) (A : IndexData),
      (List.foldl indexStep A l).last_hash = A.last_hash := by
  intro l
  induction l with
  | nil => intro A; rfl
  | cons e l ih => intro A; rw [List.foldl_cons, ih]; rfl

theorem foldl_indexApply_total :
    ∀ (l : List SmartLedgerEntry) (A : IndexData),
      (List.foldl indexApply A l).total_entries = A.total_entries + l.length := by
  intro l
  induction l with
  | nil => intro A; simp
  | cons e l ih =>
    intro A
    rw [List.foldl_cons, ih]
    simp [indexApply]
    omega

theorem foldl_indexApply_last :
    ∀ (l : List SmartLedgerEntry) (A : IndexData),
      (List.foldl indexApply A l).last_hash = chainEnd A.last_hash l := by
  intro l
  induction l with
  | nil => intro A; rfl
  | cons e l ih =>
    intro A
    rw [List.foldl_cons, ih]
    rfl

theorem foldl_step_apply_types :
    ∀ (l : List SmartLedgerEntry) (A B : IndexData),
      A.entry_types = B.entry_types →
      (List.foldl indexStep A l).entry_types = (List.foldl indexApply B l).entry_types := by
  intro l
  induction l with
  | nil => intro A B h; exact h
  | cons e l ih =>
    intro A B h
    rw [List.foldl_cons, List.foldl_cons]
    exact ih _ _ (by simp [indexStep, indexApply, h])

theorem foldl_step_apply_users :
    ∀ (l : List SmartLedgerEntry) (A B : IndexData),
      A.users = B.users →
      (List.foldl indexStep A l).users = (List.foldl indexApply B l).users := by
  intro l
  induction l with
  | nil => intro A B h; exact h
  | cons e l ih =>
    intro A B h
    rw [List.foldl_cons, List.foldl_cons]
    exact ih _ _ (by simp [indexStep, indexApply, h])

theorem foldl_step_apply_smart_ids :
    ∀ (l : List SmartLedgerEntry) (A B : IndexData),
      A.smart_ids = B.smart_ids →
      (List.foldl indexStep A l).smart_ids = (List.foldl indexApply B l).smart_ids := by
  intro l
  induction l with
  | nil => intro A B h; exact h
  | cons e l ih =>
    intro A B h
    rw [List.foldl_cons, List.foldl_cons]
    exact ih _ _ (by simp [indexStep, indexApply, h])

theorem IndexData.eq_of_fields {x y : IndexData}
    (h1 : x.total_entries = y.total_entries) (h2 : x.last_hash = y.last_hash)
    (h3 : x.entry_types = y.entry_types) (h4 : x.users = y.users)
    (h5 : x.smart_ids = y.smart_ids) : x = y := by
  cases x
  cases y
  simp_all

theorem validate_chain_of_inv (H : String → String) (st : SmartLedger)
    (h : ChainInv H st) :
    (st.validate_chain H).1.valid = true ∧
    (st.validate_chain H).1.total_entries = st.entries.length := by
  rw [SmartLedger.validate_chain]
  by_cases he : st.entries = []
  · rw [if_pos he]
    simp [he]
  · rw [if_neg he]
    simp [validateEntries_eq_nil H st.entries 0 "0" h.1]

/-- Claim C3: if the durable append fails during `record_action`, the
call reports the failure instead of an `entry_id` and leaves the store —
in-memory entries, `last_hash`, backing file and index file — exactly
as it was before the call. -/
theorem C3_record_action_write_failure_atomic (H : String → String)
    (st : SmartLedger) (atype act tgt det uid sid : String)
    (md : List (String × String)) (ts : String) (nowMs : Nat) :
    st.record_action H atype act tgt det uid sid md ts nowMs false =
      (Except.error "Failed to record ledger entry", st) := by
  simp [SmartLedger.record_action]

/-- Claim C10: `validate_chain` is read-only — the store returned after
the call (entries with all their stored fields, `last_hash`, and every
file artefact) equals the store before the call, even though validation
recomputes every hash. -/
theorem C10_validate_chain_frame (H : String → String) (st : SmartLedger) :
    (st.validate_chain H).2 = st := by
  rw [SmartLedger.validate_chain]
  split
  · rfl
  · rfl

/-- Claim C9: the Index rebuilt from scratch over the full entry
sequence (`_update_index`) equals the Index maintained incrementally by
applying each appended entry in order, starting from the empty index:
same totals, same per-action-type, per-user and per-SMART-ID counts,
and same cached last hash. -/
theorem C9_index_rebuild_eq_incremental (entries : List SmartLedgerEntry) :
    List.foldl indexApply indexInit entries =
      buildIndex entries (chainEnd "0" entries) := by
  apply IndexData.eq_of_fields
  · rw [foldl_indexApply_total, buildIndex, foldl_indexStep_total]
    simp [indexInit]
  · rw [foldl_indexApply_last, buildIndex, foldl_indexStep_last]
    rfl
  · rw [buildIndex]
    exact (foldl_step_apply_types entries
      { total_entries := entries.length, last_hash := chainEnd "0" entries,
        entry_types := [], users := [], smart_ids := [] } indexInit rfl).symm
  · rw [buildIndex]
    exact (foldl_step_apply_users entries
      { total_entries := entries.length, last_hash := chainEnd "0" entries,
        entry_types := [], users := [], smart_ids := [] } indexInit rfl).symm
  · rw [buildIndex]
    exact (foldl_step_apply_smart_ids entries
      { total_entries := entries.length, last_hash := chainEnd "0" entries,
        entry_types := [], users := [], smart_ids := [] } indexInit rfl).symm

/-- Claim C2: after any sequence of successful `record_action` calls on
a fresh chain, `validate_chain` reports `valid = true` with
`total_entries` equal to the number of appends; the first entry chains
to the genesis sentinel `"0"`, every later entry chains to its
predecessor's `entry_hash`, the cached `last_hash` is the final entry's
hash, and a fresh (empty) chain validates as valid with zero entries. -/
theorem C2_successful_appends_validate (H : String → String) (name : String)
    (reqs : List AppendReq) :
    ((runAppends H (SmartLedger.initial name) reqs).validate_chain H).1.valid = true ∧
    ((runAppends H (SmartLedger.initial name) reqs).validate_chain H).1.total_entries
      = reqs.length ∧
    (∀ e, (runAppends H (SmartLedger.initial name) reqs).entries[0]? = some e →
      e.previous_hash = "0") ∧
    (∀ i e1 e2, (runAppends H (SmartLedger.initial name) reqs).entries[i]? = some e1 →
      (runAppends H (SmartLedger.initial name) reqs).entries[i + 1]? = some e2 →
      e2.previous_hash = e1.entry_hash) ∧
    (∀ e, (runAppends H (SmartLedger.initial name) reqs).entries.getLast? = some e →
      (runAppends H (SmartLedger.initial name) reqs).last_hash = e.entry_hash) ∧
    ((SmartLedger.initial name).validate_chain H).1 =
      { valid := true, total_entries := 0, invalid_entries := [],
        message := "Empty ledger is valid" } := by
  have hinv : ChainInv H (runAppends H (SmartLedger.initial name) reqs) :=
    runAppends_inv H reqs (SmartLedger.initial name) ⟨rfl, rfl⟩
  have hlen : (runAppends H (SmartLedger.initial name) reqs).entries.length
      = reqs.length := by
    rw [runAppends_length]
    simp [SmartLedger.initial]
  refine ⟨(validate_chain_of_inv H _ hinv).1, ?_, ?_, ?_, ?_, rfl⟩
  · rw [(validate_chain_of_inv H _ hinv).2, hlen]
  · intro e he
    exact chainOk_head H _ "0" e hinv.1 he
  · intro i e1 e2 h1 h2
    exact chainOk_prev_link H _ "0" hinv.1 i e1 e2 h1 h2
  · intro e he
    rw [hinv.2]
    exact chainEnd_getLast _ "0" e he

/-- Concrete digest used to instantiate the abstract hash function in
witnesses: prefixes the hash data, so distinct hash inputs yield
distinct digests. -/
def sampleDigest : String → String := fun s => "#" ++ s

/-- First sample append request. -/
def wReq1 : AppendReq :=
  { action_type := "system", action := "start", target := "SMART-Admin",
    details := "boot", user_id := "admin", smart_id := "", metadata := [],
    timestamp := "t0", nowMs := 0 }

/-- Second sample append request. -/
def wReq2 : AppendReq :=
  { action_type := "node", action := "register", target := "pi-01",
    details := "new node", user_id := "admin", smart_id := "NOD-1",
    metadata := [], timestamp := "t1", nowMs := 1 }

/-- The ledger reached by the two sample appends on a fresh chain. -/
def wLedger : SmartLedger :=
  runAppends sampleDigest (SmartLedger.initial "ops") [wReq1, wReq2]

/-- The entry the first sample append creates. -/
def wEntry1 : SmartLedgerEntry :=
  calcEntry sampleDigest "t0" "system" "start" "SMART-Admin" "boot" "admin" "" [] "0" 0

/-- The entry the second sample append creates. -/
def wEntry2 : SmartLedgerEntry :=
  calcEntry sampleDigest "t1" "node" "register" "pi-01" "new node" "admin" "NOD-1" []
    wEntry1.entry_hash 1

theorem C2_witness :
    wLedger.entries[0]? = some wEntry1 ∧
    wLedger.entries[1]? = some wEntry2 ∧
    wEntry1.previous_hash = "0" ∧
    wEntry2.previous_hash = wEntry1.entry_hash ∧
    wLedger.last_hash = wEntry2.entry_hash ∧
    (wLedger.validate_chain sampleDigest).1.valid = true :=
  ⟨by decide, by decide,
   (C2_successful_appends_validate sampleDigest "ops" [wReq1, wReq2]).2.2.1
     wEntry1 (by decide),
   (C2_successful_appends_validate sampleDigest "ops" [wReq1, wReq2]).2.2.2.1
     0 wEntry1 wEntry2 (by decide) (by decide),
   (C2_successful_appends_validate sampleDigest "ops" [wReq1, wReq2]).2.2.2.2.1
     wEntry2 (by decide),
   (C2_successful_appends_validate sampleDigest "ops" [wReq1, wReq2]).1⟩

/-- Claim C6: `entry_hash` is a deterministic function of the hashed
fields, with `metadata` serialized canonically (keys sorted): building
the same logical entry with its metadata mapping enumerated in any
order (and any `entry_id` clock reading) yields the same hash, and for
every recorded entry of any reachable chain, rehashing the stored
fields reproduces the stored `entry_hash`. -/
theorem C6_entry_hash_canonical (H : String → String) :
    (∀ (ts atype act tgt det uid sid prev : String)
        (md1 md2 : List (String × String)) (n1 n2 : Nat),
        md1.Perm md2 → (md1.map Prod.fst).Nodup →
        (calcEntry H ts atype act tgt det uid sid md1 prev n1).entry_hash =
          (calcEntry H ts atype act tgt det uid sid md2 prev n2).entry_hash) ∧
    (∀ (name : String) (reqs : List AppendReq),
        ∀ e ∈ (runAppends H (SmartLedger.initial name) reqs).entries,
          H (e.hashData e.previous_hash) = e.entry_hash) := by
  constructor
  · intro ts atype act tgt det uid sid prev md1 md2 n1 n2 hperm hnd
    simp only [calcEntry]
    rw [hashDataOf, hashDataOf, jsonDumpsSorted_perm_invariant md1 md2 hperm hnd]
  · intro name reqs e he
    exact chainOk_rehash H _ "0"
      (runAppends_inv H reqs (SmartLedger.initial name) ⟨rfl, rfl⟩).1 e he

/-- Sample metadata, inserted in non-sorted key order. -/
def wMd1 : List (String × String) := [("b", "2"), ("a", "1")]

/-- The same metadata mapping, inserted in sorted key order. -/
def wMd2 : List (String × String) := [("a", "1"), ("b", "2")]

theorem C6_witness :
    wMd1.Perm wMd2 ∧ (wMd1.map Prod.fst).Nodup ∧
    (calcEntry sampleDigest "t" "a" "b" "c" "d" "u" "s" wMd1 "0" 0).entry_hash =
      (calcEntry sampleDigest "t" "a" "b" "c" "d" "u" "s" wMd2 "0" 1).entry_hash :=
  ⟨List.Perm.swap ("a", "1") ("b", "2") [], by decide,
   (C6_entry_hash_canonical sampleDigest).1 "t" "a" "b" "c" "d" "u" "s" "0"
     wMd1 wMd2 0 1 (List.Perm.swap ("a", "1") ("b", "2") []) (by decide)⟩

/-- Claim C5: the deletion authorization check returns `true` exactly
when `smart_id` is non-empty and carries one of the recognized
staff/admin/developer credential markers (`STF-`/`ADM-`/`DEV-`), and —
whenever the ledger's name is in the critical set — a `supervisor_id`
is supplied, non-empty, and carries a supervisor/admin marker
(`SUP-`/`ADM-`); the decision is a function of exactly these inputs. -/
theorem C5_authorize_deletion_iff (st : SmartLedger) (smart_id reason : String)
    (supervisor_id : Option String) (now : String) (authLogOk : Bool) :
    (st.authorize_ledger_deletion smart_id reason supervisor_id now authLogOk).1 = true ↔
      ((smart_id ≠ "" ∧
        (pyStartsWith smart_id "STF-" = true ∨ pyStartsWith smart_id "ADM-" = true ∨
         pyStartsWith smart_id "DEV-" = true)) ∧
       (st.ledger_name ∈ criticalLedgers →
         ∃ s, supervisor_id = some s ∧ s ≠ "" ∧
           (pyStartsWith s "SUP-" = true ∨ pyStartsWith s "ADM-" = true))) := by
  simp only [SmartLedger.authorize_ledger_deletion]
  split
  · rename_i h
    simp only [Bool.or_eq_true, beq_iff_eq, Bool.not_eq_true',
      Bool.or_eq_false_iff] at h
    constructor
    · intro hfalse; exact absurd hfalse (by simp)
    · rintro ⟨⟨hne, hstart⟩, _⟩
      rcases h with h | h
      · exact absurd h hne
      · rcases hstart with hs | hs | hs <;> simp_all
  · rename_i h
    split
    · rename_i h2
      simp only [Bool.and_eq_true] at h2
      constructor
      · intro hfalse; exact absurd hfalse (by simp)
      · rintro ⟨_, hsup⟩
        have hmem : st.ledger_name ∈ criticalLedgers := List.elem_iff.mp h2.1
        obtain ⟨s, hs, hsne, hsstart⟩ := hsup hmem
        rw [hs] at h2
        simp only [beq_iff_eq, Bool.or_eq_true, Bool.not_eq_true',
          Bool.or_eq_false_iff] at h2
        rcases h2.2 with h3 | h3
        · exact absurd h3 hsne
        · rcases hsstart with hss | hss <;> simp_all
    · rename_i h2
      simp only [Bool.or_eq_true, beq_iff_eq, Bool.not_eq_true'] at h
      push_neg at h
      constructor
      · intro _
        constructor
        · constructor
          · exact h.1
          · have := h.2
            simp only [Bool.not_eq_false, Bool.or_eq_true] at this
            tauto
        · intro hmem
          rw [Bool.and_eq_true] at h2
          push_neg at h2
          have hc : criticalLedgers.contains st.ledger_name = true :=
            List.elem_iff.mpr hmem
          cases supervisor_id with
          | none => simp_all
          | some s =>
            simp_all
            by_cases hss : pyStartsWith s "SUP-" = true
            · exact Or.inl hss
            · exact Or.inr (h2.2 (by simp_all))
      · intro _; rfl

theorem C5_witness :
    ((SmartLedger.initial "nodes").authorize_ledger_deletion "ADM-7" "cleanup"
      (some "SUP-1") "t" true).1 = true :=
  (C5_authorize_deletion_iff (SmartLedger.initial "nodes") "ADM-7" "cleanup"
    (some "SUP-1") "t" true).mpr
    ⟨⟨by decide, Or.inr (Or.inl (by decide))⟩,
     fun _ => ⟨"SUP-1", rfl, by decide, Or.inl (by decide)⟩⟩

/-- Claim C8: `create_transfer_package` never touches the store; on an
empty chain it returns the explicit error result (not a crash), and on
a non-empty chain it returns a package whose `total_entries` is the
chain length, whose `final_hash` is the cached `last_hash`, and whose
`bootstrap_entries` are exactly the final `min 5 n` entries, in order,
as a suffix of the chain. -/
theorem C8_transfer_package_spec (H : String → String) (st : SmartLedger)
    (now : String) :
    ((st.create_transfer_package H now).2 = st) ∧
    (st.entries = [] →
      (st.create_transfer_package H now).1 =
        TransferResult.emptyErr "No entries to transfer" st.ledger_name) ∧
    (st.entries ≠ [] →
      ∃ pkg, (st.create_transfer_package H now).1 = TransferResult.ok pkg ∧
        pkg.total_entries = st.entries.length ∧
        pkg.final_hash = st.last_hash ∧
        pkg.bootstrap_entries = lastN 5 st.entries ∧
        pkg.bootstrap_entries.length = min 5 st.entries.length ∧
        st.entries.take (st.entries.length - 5) ++ pkg.bootstrap_entries
          = st.entries) := by
  refine ⟨?_, ?_, ?_⟩
  · rw [SmartLedger.create_transfer_package]
    split
    · rfl
    · rfl
  · intro he
    rw [SmartLedger.create_transfer_package, if_pos he]
  · intro he
    rw [SmartLedger.create_transfer_package, if_neg he]
    refine ⟨_, rfl, rfl, rfl, rfl, ?_, ?_⟩
    · rw [lastN, List.length_drop]
      omega
    · rw [lastN]
      exact List.take_append_drop _ _

theorem C8_witness :
    ((SmartLedger.initial "empty-ledger").create_transfer_package sampleDigest "t").1 =
      TransferResult.emptyErr "No entries to transfer" "empty-ledger" ∧
    (∃ pkg, (wLedger.create_transfer_package sampleDigest "t").1 =
        TransferResult.ok pkg ∧
      pkg.total_entries = wLedger.entries.length ∧
      pkg.final_hash = wLedger.last_hash ∧
      pkg.bootstrap_entries = lastN 5 wLedger.entries ∧
      pkg.bootstrap_entries.length = min 5 wLedger.entries.length ∧
      wLedger.entries.take (wLedger.entries.length - 5) ++ pkg.bootstrap_entries
        = wLedger.entries) :=
  ⟨(C8_transfer_package_spec sampleDigest (SmartLedger.initial "empty-ledger") "t").2.1 rfl,
   (C8_transfer_package_spec sampleDigest wLedger "t").2.2 (by decide)⟩

theorem authorize_snd (st : SmartLedger) (sid r : String) (sup : Option String)
    (now : String) (lg : Bool) :
    (st.authorize_ledger_deletion sid r sup now lg).2 =
      (if lg then
        { st with auth_file := st.auth_file ++
          [{ timestamp := now, smart_id := sid, reason := r, supervisor_id := sup,
             ledger_name := st.ledger_name,
             action := "deletion_authorization_request" }] }
       else st) := by
  simp only [SmartLedger.authorize_ledger_deletion]
  split
  · rfl
  · split
    · rfl
    · rfl

theorem authorize_frame (st : SmartLedger) (sid r : String) (sup : Option String)
    (now : String) (lg : Bool) :
    (st.authorize_ledger_deletion sid r sup now lg).2.entries = st.entries ∧
    (st.authorize_ledger_deletion sid r sup now lg).2.last_hash = st.last_hash ∧
    (st.authorize_ledger_deletion sid r sup now lg).2.ledger_file = st.ledger_file ∧
    (st.authorize_ledger_deletion sid r sup now lg).2.index_file = st.index_file ∧
    (st.authorize_ledger_deletion sid r sup now lg).2.deletion_audit_file
      = st.deletion_audit_file := by
  rw [authorize_snd]
  cases lg
  · simp
  · simp

/-- Claim C1: `authorized_ledger_deletion` removes the backing file,
index file and in-memory entries only after the deletion-audit record
has been appended to the deletion-audit trail; if the authorization
check fails, or the deletion-audit write fails, the call aborts with
the corresponding error and the chain's backing file, in-memory
entries, `last_hash` (and the audit trail itself) are exactly as
before the call — no partially deleted state is reachable. -/
theorem C1_deletion_requires_audit (H : String → String) (st : SmartLedger)
    (smart_id reason : String) (supervisor_id : Option String) (now : String)
    (authLogOk auditWriteOk : Bool) :
    (((st.authorize_ledger_deletion smart_id reason supervisor_id now authLogOk).1 = false) →
      (st.authorized_ledger_deletion H smart_id reason supervisor_id now
          authLogOk auditWriteOk).1 =
        DeletionOutcome.permissionError "Unauthorized ledger deletion attempt" ∧
      (st.authorized_ledger_deletion H smart_id reason supervisor_id now
          authLogOk auditWriteOk).2.entries = st.entries ∧
      (st.authorized_ledger_deletion H smart_id reason supervisor_id now
          authLogOk auditWriteOk).2.last_hash = st.last_hash ∧
      (st.authorized_ledger_deletion H smart_id reason supervisor_id now
          authLogOk auditWriteOk).2.ledger_file = st.ledger_file ∧
      (st.authorized_ledger_deletion H smart_id reason supervisor_id now
          authLogOk auditWriteOk).2.index_file = st.index_file ∧
      (st.authorized_ledger_deletion H smart_id reason supervisor_id now
          authLogOk auditWriteOk).2.deletion_audit_file = st.deletion_audit_file) ∧
    (((st.authorize_ledger_deletion smart_id reason supervisor_id now authLogOk).1 = true) →
      auditWriteOk = false →
      (st.authorized_ledger_deletion H smart_id reason supervisor_id now
          authLogOk auditWriteOk).1 =
        DeletionOutcome.auditWriteError "Cannot delete ledger without audit trail" ∧
      (st.authorized_ledger_deletion H smart_id reason supervisor_id now
          authLogOk auditWriteOk).2.entries = st.entries ∧
      (st.authorized_ledger_deletion H smart_id reason supervisor_id now
          authLogOk auditWriteOk).2.last_hash = st.last_hash ∧
      (st.authorized_ledger_deletion H smart_id reason supervisor_id now
          authLogOk auditWriteOk).2.ledger_file = st.ledger_file ∧
      (st.authorized_ledger_deletion H smart_id reason supervisor_id now
          authLogOk auditWriteOk).2.index_file = st.index_file ∧
      (st.authorized_ledger_deletion H smart_id reason supervisor_id now
          authLogOk auditWriteOk).2.deletion_audit_file = st.deletion_audit_file) ∧
    (((st.authorize_ledger_deletion smart_id reason supervisor_id now authLogOk).1 = true) →
      auditWriteOk = true →
      (st.authorized_ledger_deletion H smart_id reason supervisor_id now
          authLogOk auditWriteOk).1 = DeletionOutcome.deleted ∧
      (∃ rec, (st.authorized_ledger_deletion H smart_id reason supervisor_id now
          authLogOk auditWriteOk).2.deletion_audit_file =
            st.deletion_audit_file ++ [rec] ∧
        rec.authorized_by = smart_id ∧ rec.reason = reason ∧
        rec.ledger_name = st.ledger_name) ∧
      (st.authorized_ledger_deletion H smart_id reason supervisor_id now
          authLogOk auditWriteOk).2.ledger_file = none ∧
      (st.authorized_ledger_deletion H smart_id reason supervisor_id now
          authLogOk auditWriteOk).2.index_file = none ∧
      (st.authorized_ledger_deletion H smart_id reason supervisor_id now
          authLogOk auditWriteOk).2.entries = [] ∧
      (st.authorized_ledger_deletion H smart_id reason supervisor_id now
          authLogOk auditWriteOk).2.last_hash = "0") := by
  have hframe := authorize_frame st smart_id reason supervisor_id now authLogOk
  refine ⟨?_, ?_, ?_⟩
  · intro hfail
    simp only [SmartLedger.authorized_ledger_deletion, hfail, Bool.not_false,
      if_true]
    exact ⟨by trivial, hframe.1, hframe.2.1, hframe.2.2.1, hframe.2.2.2.1,
      hframe.2.2.2.2⟩
  · intro hok haudit
    simp only [SmartLedger.authorized_ledger_deletion, hok, haudit,
      Bool.not_true, Bool.not_false, if_false, if_true]
    exact ⟨by trivial, hframe.1, hframe.2.1, hframe.2.2.1, hframe.2.2.2.1,
      hframe.2.2.2.2⟩
  · intro hok haudit
    simp only [SmartLedger.authorized_ledger_deletion, hok, haudit,
      Bool.not_true, if_false]
    refine ⟨by trivial,
      ⟨{ deletion_timestamp := now, authorized_by := smart_id,
         supervisor_by := supervisor_id, reason := reason,
         ledger_name := (st.authorize_ledger_deletion smart_id reason
           supervisor_id now authLogOk).2.ledger_name,
         ledger_stats := (st.authorize_ledger_deletion smart_id reason
           supervisor_id now authLogOk).2.get_stats,
         final_entries := lastN 10 (st.authorize_ledger_deletion smart_id reason
           supervisor_id now authLogOk).2.entries,
         hash_chain_validation := (SmartLedger.validate_chain H
           (st.authorize_ledger_deletion smart_id reason supervisor_id now
             authLogOk).2).1 },
       ?_, rfl, rfl, ?_⟩, by trivial, by trivial, by trivial, by trivial⟩
    · rw [hframe.2.2.2.2]
      rfl
    · rw [authorize_snd]
      cases authLogOk
      · simp
      · simp

theorem C1_witness :
    (wLedger.authorize_ledger_deletion "ADM-7" "cleanup" none "t" true).1 = true ∧
    ((wLedger.authorized_ledger_deletion sampleDigest "ADM-7" "cleanup" none "t"
        true true).1 = DeletionOutcome.deleted ∧
      (∃ rec, (wLedger.authorized_ledger_deletion sampleDigest "ADM-7" "cleanup"
          none "t" true true).2.deletion_audit_file =
            wLedger.deletion_audit_file ++ [rec] ∧
        rec.authorized_by = "ADM-7" ∧ rec.reason = "cleanup" ∧
        rec.ledger_name = wLedger.ledger_name) ∧
      (wLedger.authorized_ledger_deletion sampleDigest "ADM-7" "cleanup" none "t"
        true true).2.ledger_file = none ∧
      (wLedger.authorized_ledger_deletion sampleDigest "ADM-7" "cleanup" none "t"
        true true).2.index_file = none ∧
      (wLedger.authorized_ledger_deletion sampleDigest "ADM-7" "cleanup" none "t"
        true true).2.entries = [] ∧
      (wLedger.authorized_ledger_deletion sampleDigest "ADM-7" "cleanup" none "t"
        true true).2.last_hash = "0") :=
  ⟨by decide,
   (C1_deletion_requires_audit sampleDigest wLedger "ADM-7" "cleanup" none "t"
     true true).2.2 (by decide) rfl⟩

/-- The conjunction of the supplied `get_entries` filters, as the claim
states them: equality on `action_type` and `user_id`, inclusive bounds
on `timestamp` (Python string comparison). -/
def matchesFilters (action_type user_id start_time end_time : Option String)
    (e : SmartLedgerEntry) : Bool :=
  (action_type.elim true fun a => e.action_type == a) &&
  (user_id.elim true fun u => e.user_id == u) &&
  (start_time.elim true fun s => pyStrLe s e.timestamp) &&
  (end_time.elim true fun t => pyStrLe e.timestamp t)

theorem applyFilter_eq (o : Option String) (ho : o ≠ some "")
    (p : String → SmartLedgerEntry → Bool) (l : List SmartLedgerEntry) :
    applyFilter o p l = l.filter fun e => o.elim true fun a => p a e := by
  cases o with
  | none => simp [applyFilter, Option.elim]
  | some a =>
    have ha : a ≠ "" := by simpa using ho
    simp [applyFilter, if_neg ha, Option.elim]

theorem get_entries_fst (st : SmartLedger) (limit offset : Nat)
    (action_type user_id start_time end_time : Option String)
    (h1 : action_type ≠ some "") (h2 : user_id ≠ some "")
    (h3 : start_time ≠ some "") (h4 : end_time ≠ some "") :
    (st.get_entries limit offset action_type user_id start_time end_time).1 =
      ((sortBy (fun x y => pyStrLe y.timestamp x.timestamp)
        (st.entries.filter
          (matchesFilters action_type user_id start_time end_time))).drop
            offset).take limit := by
  simp only [SmartLedger.get_entries]
  rw [applyFilter_eq action_type h1, applyFilter_eq user_id h2,
      applyFilter_eq start_time h3, applyFilter_eq end_time h4,
      List.filter_filter, List.filter_filter, List.filter_filter]
  have hcong : ∀ x ∈ st.entries,
      ((((end_time.elim true fun t => pyStrLe x.timestamp t) &&
         (start_time.elim true fun s => pyStrLe s x.timestamp)) &&
        (user_id.elim true fun u => x.user_id == u)) &&
       (action_type.elim true fun a => x.action_type == a)) =
        matchesFilters action_type user_id start_time end_time x := by
    intro x _
    rw [matchesFilters]
    ac_rfl
  rw [List.filter_congr hcong]

/-- Claim C7 counterexample: supplying the filter `action_type = ""`
(a legal `Optional[str]` argument) is silently ignored by `get_entries`
because the empty string is Python-falsy, so the call returns entries
whose `action_type` is not `""` — not "exactly the entries satisfying
the conjunction of all supplied predicates" as the claim states. -/
theorem C7_counterexample :
    (wLedger.get_entries 100 0 (some "") none none none).1 = [wEntry2, wEntry1] ∧
    wEntry2.action_type ≠ "" ∧ wEntry1.action_type ≠ "" := by decide

/-- Claim C7 (amended): for filters that are supplied as non-empty
strings (a supplied empty-string filter is Python-falsy and treated as
absent), `get_entries` returns exactly the entries satisfying the
conjunction of the supplied predicates, sorted by timestamp descending
(newest first), then sliced by `offset` and `limit`; the store is
unchanged by the call and an empty result (not an error) comes back
when nothing matches. -/
theorem C7_get_entries_amended (st : SmartLedger) (limit offset : Nat)
    (action_type user_id start_time end_time : Option String)
    (h1 : action_type ≠ some "") (h2 : user_id ≠ some "")
    (h3 : start_time ≠ some "") (h4 : end_time ≠ some "") :
    (st.get_entries limit offset action_type user_id start_time end_time).2 = st ∧
    (st.get_entries limit offset action_type user_id start_time end_time).1 =
      ((sortBy (fun x y => pyStrLe y.timestamp x.timestamp)
        (st.entries.filter
          (matchesFilters action_type user_id start_time end_time))).drop
            offset).take limit ∧
    List.Pairwise (fun a b => pyStrLe b.timestamp a.timestamp = true)
      (st.get_entries limit offset action_type user_id start_time end_time).1 ∧
    (∀ e ∈ (st.get_entries limit offset action_type user_id start_time end_time).1,
      e ∈ st.entries ∧
      matchesFilters action_type user_id start_time end_time e = true) ∧
    (st.entries.filter (matchesFilters action_type user_id start_time end_time) = [] →
      (st.get_entries limit offset action_type user_id start_time end_time).1 = []) := by
  have hfst := get_entries_fst st limit offset action_type user_id start_time
    end_time h1 h2 h3 h4
  have htot : ∀ (a b : SmartLedgerEntry),
      ((fun x y => pyStrLe y.timestamp x.timestamp) a b ||
       (fun x y => pyStrLe y.timestamp x.timestamp) b a) = true :=
    fun a b => pyStrLe_total b.timestamp a.timestamp
  have htrans : ∀ (a b c : SmartLedgerEntry),
      (fun x y => pyStrLe y.timestamp x.timestamp) a b = true →
      (fun x y => pyStrLe y.timestamp x.timestamp) b c = true →
      (fun x y => pyStrLe y.timestamp x.timestamp) a c = true :=
    fun a b c hab hbc => pyStrLe_trans hbc hab
  refine ⟨rfl, hfst, ?_, ?_, ?_⟩
  · rw [hfst]
    exact List.Pairwise.sublist
      ((List.take_sublist _ _).trans (List.drop_sublist _ _))
      (pairwise_sortBy htot htrans _)
  · intro e he
    rw [hfst] at he
    have hmem : e ∈ sortBy (fun x y => pyStrLe y.timestamp x.timestamp)
        (st.entries.filter
          (matchesFilters action_type user_id start_time end_time)) :=
      ((List.take_sublist _ _).trans (List.drop_sublist _ _)).mem he
    have := (sortBy_perm _ _).mem_iff.mp hmem
    exact List.mem_filter.mp this
  · intro hnil
    rw [hfst, hnil]
    simp [sortBy]

theorem C7_witness :
    (wLedger.get_entries 100 0 (some "system") none (some "t0") none).1 =
      ((sortBy (fun x y => pyStrLe y.timestamp x.timestamp)
        (wLedger.entries.filter
          (matchesFilters (some "system") none (some "t0") none))).drop 0).take 100 ∧
    (wLedger.get_entries 100 0 (some "system") none (some "t0") none).1 = [wEntry1] :=
  ⟨(C7_get_entries_amended wLedger 100 0 (some "system") none (some "t0") none
     (by decide) (by decide) (by decide) (by decide)).2.1, by decide⟩

/-- The ledger reached by the first sample append alone. -/
def wLedger1 : SmartLedger :=
  runAppends sampleDigest (SmartLedger.initial "main") [wReq1]

/-- Mutation of a single stored field that is not part of the hash
input: replace an entry's `entry_id`. -/
def setEntryId (e : SmartLedgerEntry) (i : String) : SmartLedgerEntry :=
  { e with entry_id := i }

/-- The one-entry sample ledger with its entry's stored
`previous_hash` replaced. -/
def wPrevMutLedger : SmartLedger :=
  { wLedger1 with entries := [{ wEntry1 with previous_hash := "X" }] }

/-- The two-entry sample ledger with the stored `entry_hash` of its
first (non-final) entry replaced. -/
def wHashMutLedger : SmartLedger :=
  { wLedger with entries := [{ wEntry1 with entry_hash := "X" }, wEntry2] }

/-- Claim C4 counterexample: "mutating any one field yields exactly one
hash-mismatch violation at that entry's index and no other violations"
fails for three of the stored fields. Mutating only `entry_id` (not
part of the hash input) of the single entry of a valid chain yields no
violation at all; mutating only `previous_hash` yields one chain-break
violation and no hash mismatch; and mutating the `entry_hash` of a
non-final entry of a valid two-entry chain yields three violations. -/
theorem C4_counterexample :
    ((wLedger1.validate_chain sampleDigest).1.valid = true ∧
     wLedger1.entries = [wEntry1] ∧
     setEntryId wEntry1 "tampered" ≠ wEntry1 ∧
     ({ wLedger1 with
         entries := [setEntryId wEntry1 "tampered"] }.validate_chain
           sampleDigest).1.invalid_entries = [] ∧
     ({ wLedger1 with
         entries := [setEntryId wEntry1 "tampered"] }.validate_chain
           sampleDigest).1.valid = true) ∧
    ((wPrevMutLedger.validate_chain sampleDigest).1.invalid_entries =
      [Violation.chainBreak 0 wEntry1.entry_id "0" "X"]) ∧
    ((wLedger.validate_chain sampleDigest).1.valid = true ∧
     wLedger.entries = [wEntry1, wEntry2] ∧
     (wHashMutLedger.validate_chain sampleDigest).1.invalid_entries.length = 3) := by
  decide

/-- Claim C4 (amended): on a valid chain, `validate_chain` reports
exactly one violation — a hash mismatch tagged with that entry's index
and `entry_id`, and nothing else anywhere in the report — in exactly
these single-field-mutation cases: (1) one hashed field of one stored
entry is mutated (timestamp, action_type, action, target, details,
user_id, smart_id or metadata — a change that alters the hash input
while `entry_id`, `previous_hash` and `entry_hash` stay stored as they
were), provided the recomputed digest differs from the stored hash
(no hash collision); or (2) the stored `entry_hash` of the final entry
is mutated. For the remaining stored fields the original claim fails
(see the counterexample): mutating `entry_id` yields no violation at
all, mutating `previous_hash` yields a chain-break violation rather
than a hash mismatch, and mutating a non-final entry's `entry_hash`
yields three violations. -/
theorem C4_single_field_mutation (H : String → String) :
    (∀ (st : SmartLedger) (l1 l2 : List SmartLedgerEntry)
        (e e2 : SmartLedgerEntry),
      st.entries = l1 ++ e2 :: l2 →
      chainOkFrom H "0" (l1 ++ e :: l2) = true →
      e2.entry_id = e.entry_id →
      e2.previous_hash = e.previous_hash →
      e2.entry_hash = e.entry_hash →
      H (e2.hashData (chainEnd "0" l1)) ≠ e.entry_hash →
      (st.validate_chain H).1.invalid_entries =
        [Violation.hashMismatch l1.length e.entry_id
          (H (e2.hashData (chainEnd "0" l1))) e.entry_hash] ∧
      (st.validate_chain H).1.valid = false) ∧
    (∀ (st : SmartLedger) (l1 : List SmartLedgerEntry)
        (e : SmartLedgerEntry) (h2 : String),
      st.entries = l1 ++ [{ e with entry_hash := h2 }] →
      chainOkFrom H "0" (l1 ++ [e]) = true →
      h2 ≠ e.entry_hash →
      (st.validate_chain H).1.invalid_entries =
        [Violation.hashMismatch l1.length e.entry_id e.entry_hash h2] ∧
      (st.validate_chain H).1.valid = false) := by
  constructor
  · intro st l1 l2 e e2 hentries hchain hid hprev hhash hdiff
    have hne : st.entries ≠ [] := by
      rw [hentries]
      intro hcontra
      exact absurd (List.append_eq_nil.mp hcontra).2 (by simp)
    rw [chainOkFrom_append] at hchain
    rw [Bool.and_eq_true] at hchain
    have hok1 : chainOkFrom H "0" l1 = true := hchain.1
    have hmid := hchain.2
    rw [chainOkFrom] at hmid
    rw [Bool.and_eq_true, Bool.and_eq_true] at hmid
    obtain ⟨⟨hprev0, hhash0⟩, hrest⟩ := hmid
    rw [beq_iff_eq] at hprev0 hhash0
    have hval : validateEntries H 0 "0" st.entries =
        [Violation.hashMismatch l1.length e.entry_id
          (H (e2.hashData (chainEnd "0" l1))) e.entry_hash] := by
      rw [hentries, validateEntries_append, validateEntries_eq_nil H l1 0 "0" hok1]
      rw [validateEntries]
      rw [if_neg (by rw [hhash]; exact hdiff)]
      rw [if_pos (by rw [hprev, hprev0])]
      rw [validateEntries_eq_nil H l2 _ _ (by rw [hhash]; exact hrest)]
      simp [hid, hhash]
    rw [SmartLedger.validate_chain, if_neg hne]
    constructor
    · exact hval
    · simp [hval]
  · intro st l1 e h2 hentries hchain hdiff
    have hne : st.entries ≠ [] := by
      rw [hentries]
      intro hcontra
      exact absurd (List.append_eq_nil.mp hcontra).2 (by simp)
    rw [chainOkFrom_append] at hchain
    rw [Bool.and_eq_true] at hchain
    have hok1 : chainOkFrom H "0" l1 = true := hchain.1
    have hmid := hchain.2
    rw [chainOkFrom] at hmid
    rw [Bool.and_eq_true, Bool.and_eq_true] at hmid
    obtain ⟨⟨hprev0, hhash0⟩, _⟩ := hmid
    rw [beq_iff_eq] at hprev0 hhash0
    have hdata : SmartLedgerEntry.hashData { e with entry_hash := h2 }
        (chainEnd "0" l1) = e.hashData (chainEnd "0" l1) := by
      simp [SmartLedgerEntry.hashData]
    have hval : validateEntries H 0 "0" st.entries =
        [Violation.hashMismatch l1.length e.entry_id e.entry_hash h2] := by
      rw [hentries, validateEntries_append, validateEntries_eq_nil H l1 0 "0" hok1]
      rw [validateEntries]
      rw [if_neg (by
        rw [hdata, ← hhash0]
        exact fun hcontra => hdiff hcontra.symm)]
      rw [if_pos (show ({ e with entry_hash := h2 } :
        SmartLedgerEntry).previous_hash = chainEnd "0" l1 from hprev0)]
      rw [validateEntries]
      simp [hdata, ← hhash0]
    rw [SmartLedger.validate_chain, if_neg hne]
    constructor
    · exact hval
    · simp [hval]

/-- The first sample entry with one hashed field (`details`) mutated;
its `entry_id`, `previous_hash` and `entry_hash` are stored unchanged. -/
def wEntry1Mut : SmartLedgerEntry := { wEntry1 with details := "EVIL" }

/-- The one-entry sample ledger with its stored entry's `details`
mutated. -/
def wTamperedLedger : SmartLedger := { wLedger1 with entries := [wEntry1Mut] }

/-- The one-entry sample ledger with the stored `entry_hash` of its
final (only) entry mutated. -/
def wFinalHashLedger : SmartLedger :=
  { wLedger1 with entries := [{ wEntry1 with entry_hash := "X" }] }

theorem C4_witness :
    (wTamperedLedger.entries = [] ++ wEntry1Mut :: [] ∧
     chainOkFrom sampleDigest "0" ([] ++ wEntry1 :: []) = true ∧
     ((wTamperedLedger.validate_chain sampleDigest).1.invalid_entries =
       [Violation.hashMismatch ([] : List SmartLedgerEntry).length wEntry1.entry_id
         (sampleDigest (wEntry1Mut.hashData (chainEnd "0" []))) wEntry1.entry_hash] ∧
      (wTamperedLedger.validate_chain sampleDigest).1.valid = false)) ∧
    (("X" : String) ≠ wEntry1.entry_hash ∧
     ((wFinalHashLedger.validate_chain sampleDigest).1.invalid_entries =
       [Violation.hashMismatch ([] : List SmartLedgerEntry).length wEntry1.entry_id
         wEntry1.entry_hash "X"] ∧
      (wFinalHashLedger.validate_chain sampleDigest).1.valid = false)) :=
  ⟨⟨rfl, by decide,
    (C4_single_field_mutation sampleDigest).1 wTamperedLedger [] [] wEntry1
      wEntry1Mut rfl (by decide) (by decide) (by decide) (by decide) (by decide)⟩,
   ⟨by decide,
    (C4_single_field_mutation sampleDigest).2 wFinalHashLedger [] wEntry1 "X"
      rfl (by decide) (by decide)⟩⟩
